import Mathlib

set_option linter.unusedVariables false

/-!
Verification of the `wipy-hd44780` driver (`src/hd44780.py`).

The driver is shallowly embedded: each Python method of class `HD44780`
becomes a Lean function over an explicit record of the instance fields it
reads and writes.  Pin operations are not modelled as hardware but as an
event trace (`Ev`): every `pin.value(v)` call appends one event, so the
order and content of the physical bus protocol is fully observable.
Python exceptions become `Except Err`, with one `Err` constructor per
distinct raise site / runtime error class that the driver can hit.
-/

namespace HD44780

/-- Class constant `DDRAM0_START` (line address of hardware row segment 0). -/
def DDRAM0_START : Nat := 0x00

/-- Class constant `DDRAM1_START` (line address of hardware row segment 1). -/
def DDRAM1_START : Nat := 0x40

/-- Class constant `MSG_TYPE_CMD`. -/
def MSG_TYPE_CMD : Nat := 0

/-- Class constant `MSG_TYPE_DATA`. -/
def MSG_TYPE_DATA : Nat := 1

/-- Class constant `MODE_UNKNOWN`. -/
def MODE_UNKNOWN : Nat := 0

/-- Class constant `MODE_8BIT`. -/
def MODE_8BIT : Nat := 8

/-- Class constant `MODE_4BIT`. -/
def MODE_4BIT : Nat := 4

/-- Class constant `FONT_5x8`. -/
def FONT_5x8 : Nat := 0

/-- Class constant `FONT_5x10`. -/
def FONT_5x10 : Nat := 1

/-- Default value of the `delay_us` parameter of `_send` (never overridden
by any caller in the source). -/
def DELAY_US : Nat := 1530

/-- Python errors that the driver can raise.
  * `indexError`: list subscript out of range (`bit_data[i+b]` in `_send`,
    or a line-address lookup past the end of the tuple in `write`);
  * `typeError`: subscripting a non-sequence (`self._line_addr[line_no]`
    when `_init_line_addrs` returned a bare integer);
  * `zeroDivisionError`: `%` or `//` with zero divisor in `write`;
  * `valueError`: `range(0, n, 0)` with zero step in `_send`;
  * `pinCountError`: the explicit `raise Exception` in `__init__`
    (message: number of pins must be 4 or 8);
  * `noMappingError`: the explicit `raise Exception` in `_init_line_addrs`
    (message: no DDRAM to pixel mapping for this ratio). -/
inductive Err where
  | indexError
  | typeError
  | zeroDivisionError
  | valueError
  | pinCountError
  | noMappingError
deriving DecidableEq, Repr

/-- One observable pin event.
  * `rs v`: `self._rs_pin.value(v)`
  * `data idx v`: `self._data_pins[idx].value(v)`
  * `clk v`: `self._clk_pin.value(v)`
  * `sleep us`: `time.sleep_us(us)` -/
inductive Ev where
  | rs (v : Nat)
  | data (idx : Nat) (v : Nat)
  | clk (v : Nat)
  | sleep (us : Nat)
deriving DecidableEq, Repr

/-- The mutable instance fields of class `HD44780` that the logic reads or
writes.  `line_addr` is `Sum Nat (List Nat)` because the Python
`_init_line_addrs` returns either a bare integer (`(self.DDRAM0_START)` for
height 1 -- the parenthesised expression is not a tuple) or a tuple. -/
structure State where
  ch_idx : Nat
  width : Nat
  height : Nat
  line_addr : Sum Nat (List Nat)
  no_pins : Nat
  mode : Nat
deriving DecidableEq, Repr

/-- Inner loop body of `_send`: `for b in range(0, self._no_pins):
self._data_pins[b].value(bit_data[i+b])`.  The third argument is the list
of pin indices `b` still to process; an out-of-range read of `bit_data`
raises `IndexError` exactly where Python would. -/
def chunkData (bits : List Nat) (i : Nat) : List Nat → Except Err (List Ev)
  | [] => Except.ok []
  | b :: rest =>
    match bits.get? (i + b) with
    | none => Except.error Err.indexError
    | some v =>
      match chunkData bits i rest with
      | Except.error e => Except.error e
      | Except.ok ds => Except.ok (Ev.data b v :: ds)

/-- One iteration of the outer `_send` loop at chunk start index `i`: set
the data pins from `bit_data[i .. i+no_pins-1]`, then
`self._clk_pin.value(1)`, `time.sleep_us(delay_us)`,
`self._clk_pin.value(0)`. -/
def chunk (noPins : Nat) (bits : List Nat) (i : Nat) : Except Err (List Ev) :=
  match chunkData bits i (List.range noPins) with
  | Except.error e => Except.error e
  | Except.ok ds => Except.ok (ds ++ [Ev.clk 1, Ev.sleep DELAY_US, Ev.clk 0])

/-- Iterate `chunk` over the list of chunk start indices (the Python
`for i in range(0, payload_len, self._no_pins)`). -/
def sendChunks (noPins : Nat) (bits : List Nat) : List Nat → Except Err (List Ev)
  | [] => Except.ok []
  | i :: rest =>
    match chunk noPins bits i with
    | Except.error e => Except.error e
    | Except.ok c =>
      match sendChunks noPins bits rest with
      | Except.error e => Except.error e
      | Except.ok cs => Except.ok (c ++ cs)

/-- The index list of Python `range(start, stop, step)` for `step ≥ 1`,
computed by stepping exactly as `range` does.  The `fuel` argument only
bounds the recursion; `fuel = stop - start` always suffices for
`step ≥ 1`. -/
def rangeStep (stop step : Nat) : Nat → Nat → List Nat
  | 0, i => []
  | fuel+1, i => if i < stop then i :: rangeStep stop step fuel (i + step) else []

/-- `HD44780._send(bit_data, msg_type)`: set the RS pin from the message
type, then send the payload in chunks of `no_pins` bits, iterating
`for i in range(0, payload_len, self._no_pins)`; `range` with step `0`
raises `ValueError` in Python. -/
def send (noPins : Nat) (bits : List Nat) (msgType : Nat) : Except Err (List Ev) :=
  if noPins = 0 then Except.error Err.valueError
  else
    match sendChunks noPins bits (rangeStep bits.length noPins bits.length 0) with
    | Except.error e => Except.error e
    | Except.ok evs =>
      Except.ok (Ev.rs (if msgType = MSG_TYPE_DATA then 1 else 0) :: evs)

/-- Helper for the Python methods of the form
`return self._send(bits, self.MSG_TYPE_CMD)`: the instance state is
returned unchanged next to the event trace. -/
def cmdSend (s : State) (bits : List Nat) : Except Err (List Ev × State) :=
  match send s.no_pins bits MSG_TYPE_CMD with
  | Except.error e => Except.error e
  | Except.ok t => Except.ok (t, s)

/-- `HD44780.clear`. -/
def clear (s : State) : Except Err (List Ev × State) :=
  cmdSend s [0,0,0,0,0,0,0,1]

/-- `HD44780.home`. -/
def home (s : State) : Except Err (List Ev × State) :=
  cmdSend s [0,0,0,0,0,0,1,0]

/-- `HD44780.shift`. -/
def shift (s : State) (s_c r_l : Nat) : Except Err (List Ev × State) :=
  cmdSend s [0,0,0,1,s_c,r_l,0,0]

/-- `HD44780.set_display_opts`. -/
def set_display_opts (s : State) (d c b : Nat) : Except Err (List Ev × State) :=
  cmdSend s [0,0,0,0,1,d,c,b]

/-- `HD44780.set_entry_mode`. -/
def set_entry_mode (s : State) (i_d sh : Nat) : Except Err (List Ev × State) :=
  cmdSend s [0,0,0,0,0,1,i_d,sh]

/-- `HD44780.set_function`: `dl_bit = int(self._no_pins == 8)` followed by
`self._send([0,0,1,dl_bit,n,f,1,1], self.MSG_TYPE_CMD)`. -/
def set_function (s : State) (n f : Nat) : Except Err (List Ev × State) :=
  let dl_bit : Nat := if s.no_pins = 8 then 1 else 0
  cmdSend s [0,0,1,dl_bit,n,f,1,1]

/-- The bit list computed by `HD44780.set_ddram`:
`addr = (addr & 0xff) | 0x80; data = [(addr >> n & 1) for n in range(7,-1,-1)]`. -/
def ddramBits (addr : Nat) : List Nat :=
  let a2 := (addr &&& 0xff) ||| 0x80
  (List.range 8).reverse.map (fun n => (a2 >>> n) &&& 1)

/-- The bit list computed by `HD44780.set_cgram`:
`addr = (addr & 0x7f) | 0x40; data = [(addr >> n & 1) for n in range(7,-1,-1)]`. -/
def cgramBits (addr : Nat) : List Nat :=
  let a2 := (addr &&& 0x7f) ||| 0x40
  (List.range 8).reverse.map (fun n => (a2 >>> n) &&& 1)

/-- `HD44780.set_ddram`. -/
def set_ddram (s : State) (addr : Nat) : Except Err (List Ev × State) :=
  cmdSend s (ddramBits addr)

/-- `HD44780.set_cgram`. -/
def set_cgram (s : State) (addr : Nat) : Except Err (List Ev × State) :=
  cmdSend s (cgramBits addr)

/-- `HD44780.set_8bit_mode`: the loop `for i in range(3)` sends
`[0,0,1,1]` three times, then `self._mode = self.MODE_8BIT`. -/
def set_8bit_mode (s : State) : Except Err (List Ev × State) :=
  match send s.no_pins [0,0,1,1] MSG_TYPE_CMD with
  | Except.error e => Except.error e
  | Except.ok t1 =>
    match send s.no_pins [0,0,1,1] MSG_TYPE_CMD with
    | Except.error e => Except.error e
    | Except.ok t2 =>
      match send s.no_pins [0,0,1,1] MSG_TYPE_CMD with
      | Except.error e => Except.error e
      | Except.ok t3 =>
        Except.ok (t1 ++ t2 ++ t3, { s with mode := MODE_8BIT })

/-- `HD44780.set_4bit_mode`: first re-run `set_8bit_mode` unless
`self._mode == self.MODE_8BIT`, then send `[0,0,1,0]`.  Note the Python
method never assigns `self._mode = MODE_4BIT`; the state is returned with
whatever mode the reset left. -/
def set_4bit_mode (s : State) : Except Err (List Ev × State) :=
  match (if s.mode ≠ MODE_8BIT then set_8bit_mode s else Except.ok ([], s)) with
  | Except.error e => Except.error e
  | Except.ok (t0, s0) =>
    match send s0.no_pins [0,0,1,0] MSG_TYPE_CMD with
    | Except.error e => Except.error e
    | Except.ok t1 => Except.ok (t0 ++ t1, s0)

/-- `HD44780._init_line_addrs(w, h)`.  Faithful to the source: the
`h == 1` branch returns `(self.DDRAM0_START)` which in Python is the bare
integer `0x00` (no trailing comma, hence not a tuple), modelled as
`Sum.inl`; the `h == 2` and `h == 4` branches return genuine tuples,
modelled as `Sum.inr`; any other height raises. -/
def init_line_addrs (w h : Nat) : Except Err (Sum Nat (List Nat)) :=
  if h = 1 then Except.ok (Sum.inl DDRAM0_START)
  else if h = 2 then Except.ok (Sum.inr [DDRAM0_START, DDRAM1_START])
  else if h = 4 then
    Except.ok (Sum.inr [DDRAM0_START, DDRAM1_START,
                        DDRAM0_START + 0x14, DDRAM1_START + 0x14])
  else Except.error Err.noMappingError

/-- Fuel-assisted binary length (number of digits of `format(n, 'b')`).
`bitLenAux n n` equals `1 + floor(log2 n)` for `n > 0` and `0` for
`n = 0`; fuel `n` always suffices since the value halves each step. -/
def bitLenAux : Nat → Nat → Nat
  | 0, _ => 0
  | fuel+1, n => if n = 0 then 0 else bitLenAux fuel (n / 2) + 1

/-- Digit list of Python `'{0:08b}'.format(n)` as integers: the binary
digits of `n`, most significant first, left-padded with zeros to at least
8 digits (and longer than 8 exactly when `n ≥ 256`, as in Python). -/
def binDigits (n : Nat) : List Nat :=
  (List.range (max 8 (max 1 (bitLenAux n n)))).reverse.map (fun k => (n >>> k) &&& 1)

/-- One iteration of the `for ch in buf` loop body of `HD44780.write`:
compute `line_pos = self._ch_idx % self._width`; if it is zero, look up
`self._line_addr[self._ch_idx // self._width]` (a `TypeError` if
`_line_addr` is a bare integer, an `IndexError` if past the tuple end)
and issue `set_ddram`; then send the character data and advance
`self._ch_idx = (self._ch_idx + 1) % (self._width * self._height)`. -/
def writeChar (s : State) (ch : Char) : Except Err (List Ev × State) :=
  if s.width = 0 then Except.error Err.zeroDivisionError
  else
    match (if s.ch_idx % s.width = 0 then
             match s.line_addr with
             | Sum.inl _ => Except.error Err.typeError
             | Sum.inr addrs =>
               match addrs.get? (s.ch_idx / s.width) with
               | none => Except.error Err.indexError
               | some a =>
                 match set_ddram s a with
                 | Except.error e => Except.error e
                 | Except.ok (t1, _) => Except.ok t1
           else Except.ok ([] : List Ev)) with
    | Except.error e => Except.error e
    | Except.ok t1 =>
      match send s.no_pins (binDigits ch.toNat) MSG_TYPE_DATA with
      | Except.error e => Except.error e
      | Except.ok t2 =>
        if s.width * s.height = 0 then Except.error Err.zeroDivisionError
        else Except.ok (t1 ++ t2,
          { s with ch_idx := (s.ch_idx + 1) % (s.width * s.height) })

/-- The `for ch in buf` loop of `HD44780.write`. -/
def writeLoop : State → List Char → Except Err (List Ev × State)
  | s, [] => Except.ok ([], s)
  | s, ch :: rest =>
    match writeChar s ch with
    | Except.error e => Except.error e
    | Except.ok (t1, s1) =>
      match writeLoop s1 rest with
      | Except.error e => Except.error e
      | Except.ok (t2, s2) => Except.ok (t1 ++ t2, s2)

/-- `HD44780.write(buf)`: `self.home()`, then `self._ch_idx = 0`, then the
character loop. -/
def write (s : State) (buf : List Char) : Except Err (List Ev × State) :=
  match home s with
  | Except.error e => Except.error e
  | Except.ok (t0, s0) =>
    match writeLoop { s0 with ch_idx := 0 } buf with
    | Except.error e => Except.error e
    | Except.ok (t, s2) => Except.ok (t0 ++ t, s2)

/-- `HD44780.__init__` after pin binding, abstracted over the number of
data pins (`len(host_pins)`), width, height and font.  Order follows the
source: build the line-address table (which can raise for a bad height),
initialise the accounting fields, run `set_8bit_mode`, then branch on the
pin count (`set_8bit_mode` again for 8, `set_4bit_mode` for 4, raise
otherwise), then `clear`, then `set_function` with the line-count bit and
a hard-coded font bit `0`. -/
def hdInit (no_pins width height font : Nat) : Except Err (List Ev × State) :=
  match init_line_addrs width height with
  | Except.error e => Except.error e
  | Except.ok la =>
    let s0 : State :=
      { ch_idx := 0, width := width, height := height,
        line_addr := la, no_pins := no_pins, mode := MODE_UNKNOWN }
    match set_8bit_mode s0 with
    | Except.error e => Except.error e
    | Except.ok (t1, s1) =>
      match (if no_pins = 8 then set_8bit_mode s1
             else if no_pins = 4 then set_4bit_mode s1
             else Except.error Err.pinCountError) with
      | Except.error e => Except.error e
      | Except.ok (t2, s2) =>
        match clear s2 with
        | Except.error e => Except.error e
        | Except.ok (t3, s3) =>
          match (if height = 1 then set_function s3 0 0
                 else set_function s3 1 0) with
          | Except.error e => Except.error e
          | Except.ok (t4, s4) => Except.ok (t1 ++ t2 ++ t3 ++ t4, s4)

/-- Observation helper: the data-pin values that occur in a trace, in
order. -/
def dataVals (t : List Ev) : List Nat :=
  t.filterMap (fun e => match e with | Ev.data _ v => some v | _ => none)

/-- Observation helper used by `sendPayloads`. -/
def payloadsAux : List Ev → List Nat → List (List Nat)
  | [], cur => [cur]
  | Ev.rs _ :: rest, cur => cur :: payloadsAux rest []
  | Ev.data _ v :: rest, cur => payloadsAux rest (cur ++ [v])
  | Ev.clk _ :: rest, cur => payloadsAux rest cur
  | Ev.sleep _ :: rest, cur => payloadsAux rest cur

/-- Observation helper: split a trace at the RS events (each `_send` call
emits exactly one) and return, per `_send` call, the list of data-pin
values it drove.  For successful sends this is exactly the 8-bit (or
4-bit) payload handed to `_send`. -/
def sendPayloads : List Ev → List (List Nat)
  | [] => []
  | Ev.rs _ :: rest => payloadsAux rest []
  | Ev.data _ _ :: rest => sendPayloads rest
  | Ev.clk _ :: rest => sendPayloads rest
  | Ev.sleep _ :: rest => sendPayloads rest

/-- Observation helper: the numeric value of a most-significant-first bit
list. -/
def byteOfBits (bits : List Nat) : Nat :=
  bits.foldl (fun acc b => 2 * acc + b) 0

/-! ### Inversion and trace-shape lemmas about `_send` -/

theorem cmdSend_ok {s : State} {bits : List Nat} {t : List Ev} {s2 : State}
    (h : cmdSend s bits = Except.ok (t, s2)) :
    send s.no_pins bits MSG_TYPE_CMD = Except.ok t ∧ s2 = s := by
  unfold cmdSend at h
  split at h
  · exact absurd h (by simp)
  · rename_i heq
    cases h
    exact ⟨heq, rfl⟩

theorem send_ok_shape {np : Nat} {bits : List Nat} {mt : Nat} {t : List Ev}
    (h : send np bits mt = Except.ok t) :
    np ≠ 0 ∧ ∃ evs, t = Ev.rs (if mt = MSG_TYPE_DATA then 1 else 0) :: evs ∧
      sendChunks np bits (rangeStep bits.length np bits.length 0) = Except.ok evs := by
  unfold send at h
  split at h
  · exact absurd h (by simp)
  · rename_i hnp
    refine ⟨hnp, ?_⟩
    split at h
    · exact absurd h (by simp)
    · rename_i evs heq
      cases h
      exact ⟨evs, rfl, heq⟩

theorem chunk_ok_shape {np : Nat} {bits : List Nat} {i : Nat} {evs : List Ev}
    (h : chunk np bits i = Except.ok evs) :
    ∃ ds, evs = ds ++ [Ev.clk 1, Ev.sleep DELAY_US, Ev.clk 0] ∧
      chunkData bits i (List.range np) = Except.ok ds := by
  unfold chunk at h
  split at h
  · exact absurd h (by simp)
  · rename_i ds heq
    cases h
    exact ⟨ds, rfl, heq⟩

theorem chunkData_no_rs {bits : List Nat} {i : Nat} :
    ∀ {l : List Nat} {ds : List Ev}, chunkData bits i l = Except.ok ds →
      ∀ v, Ev.rs v ∉ ds := by
  intro l
  induction l with
  | nil =>
    intro ds h v
    unfold chunkData at h
    cases h
    simp
  | cons b rest ih =>
    intro ds h v
    unfold chunkData at h
    split at h
    · exact absurd h (by simp)
    · split at h
      · exact absurd h (by simp)
      · rename_i ds0 heq
        cases h
        intro hmem
        rcases List.mem_cons.mp hmem with hc | hc
        · exact Ev.noConfusion hc
        · exact ih heq v hc

theorem chunk_no_rs {np : Nat} {bits : List Nat} {i : Nat} {evs : List Ev}
    (h : chunk np bits i = Except.ok evs) : ∀ v, Ev.rs v ∉ evs := by
  obtain ⟨ds, rfl, hds⟩ := chunk_ok_shape h
  intro v hmem
  rcases List.mem_append.mp hmem with hc | hc
  · exact chunkData_no_rs hds v hc
  · simp at hc

theorem sendChunks_no_rs {np : Nat} {bits : List Nat} :
    ∀ {l : List Nat} {evs : List Ev}, sendChunks np bits l = Except.ok evs →
      ∀ v, Ev.rs v ∉ evs := by
  intro l
  induction l with
  | nil =>
    intro evs h v
    unfold sendChunks at h
    cases h
    simp
  | cons i rest ih =>
    intro evs h v
    unfold sendChunks at h
    split at h
    · exact absurd h (by simp)
    · rename_i c hc
      split at h
      · exact absurd h (by simp)
      · rename_i cs hcs
        cases h
        intro hmem
        rcases List.mem_append.mp hmem with hm | hm
        · exact chunk_no_rs hc v hm
        · exact ih hcs v hm

/-- Each `_send` call drives RS exactly once, to the value determined by
the message type; no other RS event occurs in its trace. -/
theorem send_rs_mem {np : Nat} {bits : List Nat} {mt : Nat} {t : List Ev}
    (h : send np bits mt = Except.ok t) (v : Nat) :
    Ev.rs v ∈ t ↔ v = (if mt = MSG_TYPE_DATA then 1 else 0) := by
  obtain ⟨-, evs, rfl, hevs⟩ := send_ok_shape h
  constructor
  · intro hmem
    rcases List.mem_cons.mp hmem with hc | hc
    · exact (Ev.rs.injEq _ _).mp hc
    · exact absurd hc (sendChunks_no_rs hevs v)
  · intro hv
    subst hv
    exact List.mem_cons_self _ _

theorem chunk_getLast {np : Nat} {bits : List Nat} {i : Nat} {evs : List Ev}
    (h : chunk np bits i = Except.ok evs) :
    evs.getLast? = some (Ev.clk 0) := by
  obtain ⟨ds, rfl, -⟩ := chunk_ok_shape h
  simp [List.getLast?_append]

theorem sendChunks_getLast {np : Nat} {bits : List Nat} :
    ∀ {l : List Nat} {evs : List Ev}, sendChunks np bits l = Except.ok evs →
      l ≠ [] → evs.getLast? = some (Ev.clk 0) := by
  intro l
  induction l with
  | nil => intro evs h hne; exact absurd rfl hne
  | cons i rest ih =>
    intro evs h hne
    unfold sendChunks at h
    split at h
    · exact absurd h (by simp)
    · rename_i c hc
      split at h
      · exact absurd h (by simp)
      · rename_i cs hcs
        cases h
        by_cases hrest : rest = []
        · subst hrest
          unfold sendChunks at hcs
          cases hcs
          simpa using chunk_getLast hc
        · have := ih hcs hrest
          rw [List.getLast?_append, this]
          rfl

theorem rangeStep_ne_nil (np : Nat) {L : Nat} (hL : 0 < L) :
    rangeStep L np L 0 ≠ [] := by
  cases L with
  | zero => exact absurd hL (by simp)
  | succ l => simp [rangeStep]

/-- A successful `_send` of a nonempty payload ends with the clock pin
driven low. -/
theorem send_getLast {np : Nat} {bits : List Nat} {mt : Nat} {t : List Ev}
    (h : send np bits mt = Except.ok t) (hne : bits ≠ []) :
    t.getLast? = some (Ev.clk 0) := by
  obtain ⟨hnp, evs, rfl, hevs⟩ := send_ok_shape h
  have hlen : 0 < bits.length := List.length_pos.mpr hne
  have hstarts := rangeStep_ne_nil np hlen
  have hlast := sendChunks_getLast hevs hstarts
  show (([Ev.rs (if mt = MSG_TYPE_DATA then 1 else 0)] ++ evs)).getLast? = some (Ev.clk 0)
  rw [List.getLast?_append, hlast]
  rfl

theorem binDigits_ne_nil (n : Nat) : binDigits n ≠ [] := by
  apply List.ne_nil_of_length_pos
  simp only [binDigits, List.length_map, List.length_reverse, List.length_range]
  omega

/-! ### Inversion lemmas about `write` -/

/-- Full inversion of one successful `write`-loop iteration: the new state
advances the cursor modulo `width * height`, the trace is the optional
row-address command followed by the character data send, and the
row-address command is present exactly when `ch_idx % width = 0`. -/
theorem writeChar_ok {s : State} {ch : Char} {t : List Ev} {s2 : State}
    (h : writeChar s ch = Except.ok (t, s2)) :
    s2 = { s with ch_idx := (s.ch_idx + 1) % (s.width * s.height) } ∧
    s.width ≠ 0 ∧ s.width * s.height ≠ 0 ∧
    ∃ t1 t2, t = t1 ++ t2 ∧
      send s.no_pins (binDigits ch.toNat) MSG_TYPE_DATA = Except.ok t2 ∧
      ((s.ch_idx % s.width = 0 ∧
        ∃ la a, s.line_addr = Sum.inr la ∧
          la.get? (s.ch_idx / s.width) = some a ∧
          set_ddram s a = Except.ok (t1, s)) ∨
       (s.ch_idx % s.width ≠ 0 ∧ t1 = [])) := by
  unfold writeChar at h
  split at h
  · exact absurd h (by simp)
  · rename_i hw
    split at h
    · exact absurd h (by simp)
    · rename_i t1 haddr
      split at h
      · exact absurd h (by simp)
      · rename_i t2 hsend
        split at h
        · exact absurd h (by simp)
        · rename_i hwh
          cases h
          refine ⟨rfl, hw, hwh, t1, t2, rfl, hsend, ?_⟩
          split at haddr
          · rename_i hz
            left
            refine ⟨hz, ?_⟩
            split at haddr
            · exact absurd haddr (by simp)
            · rename_i la hla
              split at haddr
              · exact absurd haddr (by simp)
              · rename_i a hga
                split at haddr
                · exact absurd haddr (by simp)
                · rename_i p hdd
                  cases haddr
                  obtain ⟨hsend2, hs⟩ := cmdSend_ok hdd
                  refine ⟨la, a, hla, hga, ?_⟩
                  rw [hdd, hs]
          · rename_i hz
            right
            cases haddr
            exact ⟨hz, rfl⟩

theorem writeChar_getLast {s : State} {ch : Char} {t : List Ev} {s2 : State}
    (h : writeChar s ch = Except.ok (t, s2)) :
    t.getLast? = some (Ev.clk 0) := by
  obtain ⟨-, -, -, t1, t2, rfl, hsend, -⟩ := writeChar_ok h
  rw [List.getLast?_append, send_getLast hsend (binDigits_ne_nil _)]
  rfl

theorem writeLoop_ok_state :
    ∀ {buf : List Char} {s : State} {t : List Ev} {s2 : State},
      writeLoop s buf = Except.ok (t, s2) →
      s2 = { s with ch_idx := (s.ch_idx + buf.length) % (s.width * s.height) } ∨
      (buf = [] ∧ s2 = s) := by
  intro buf
  induction buf with
  | nil =>
    intro s t s2 h
    unfold writeLoop at h
    cases h
    exact Or.inr ⟨rfl, rfl⟩
  | cons ch rest ih =>
    intro s t s2 h
    unfold writeLoop at h
    split at h
    · exact absurd h (by simp)
    · rename_i p1 hch
      split at h
      · exact absurd h (by simp)
      · rename_i p2 hrest
        cases h
        obtain ⟨hs1, -, -, -⟩ := writeChar_ok hch
        subst hs1
        rcases ih hrest with hs2 | ⟨hr, hs2⟩
        · left
          rw [hs2]
          simp only [List.length_cons, Nat.mod_add_mod]
          congr 2
          omega
        · left
          subst hr
          rw [hs2]
          simp

/-! ### Byte-level facts about the address encoders -/

theorem byteOfBits_eight {m : Nat} (hm : m < 256) :
    byteOfBits ((List.range 8).reverse.map (fun n => (m >>> n) &&& 1)) = m := by
  have h8 : (List.range 8).reverse = [7,6,5,4,3,2,1,0] := by decide
  rw [h8]
  simp only [List.map_cons, List.map_nil, byteOfBits, List.foldl_cons, List.foldl_nil]
  simp only [Nat.shiftRight_eq_div_pow, Nat.and_one_is_mod]
  norm_num
  omega

theorem ddram_byte (a : Nat) : byteOfBits (ddramBits a) = ((a &&& 0xff) ||| 0x80) := by
  have h1 : a &&& 0xff < 2 ^ 8 := Nat.lt_succ_of_le Nat.and_le_right
  have h0 : (0x80 : Nat) < 2 ^ 8 := by norm_num
  have h2 : (a &&& 0xff) ||| 0x80 < 2 ^ 8 := Nat.or_lt_two_pow h1 h0
  exact byteOfBits_eight h2

theorem cgram_byte (a : Nat) : byteOfBits (cgramBits a) = ((a &&& 0x7f) ||| 0x40) := by
  have h1 : a &&& 0x7f < 2 ^ 8 :=
    Nat.lt_of_le_of_lt Nat.and_le_right (by norm_num)
  have h0 : (0x40 : Nat) < 2 ^ 8 := by norm_num
  have h2 : (a &&& 0x7f) ||| 0x40 < 2 ^ 8 := Nat.or_lt_two_pow h1 h0
  exact byteOfBits_eight h2

/-- Shorthand for one bit of a byte, most-significant-first indexing by
shift amount. -/
def bit8 (m k : Nat) : Nat := (m >>> k) &&& 1

/-- Explicit trace of a 4-pin-bus `_send` of an arbitrary 8-bit payload:
two chunk transfers, most-significant nibble first, data-pin index 0
taking the first (most significant) bit of each nibble, each chunk ending
with the clock pulse and settle delay. -/
theorem send4_explicit (b0 b1 b2 b3 b4 b5 b6 b7 mt : Nat) :
    send 4 [b0,b1,b2,b3,b4,b5,b6,b7] mt =
      Except.ok [Ev.rs (if mt = MSG_TYPE_DATA then 1 else 0),
        Ev.data 0 b0, Ev.data 1 b1, Ev.data 2 b2, Ev.data 3 b3,
        Ev.clk 1, Ev.sleep 1530, Ev.clk 0,
        Ev.data 0 b4, Ev.data 1 b5, Ev.data 2 b6, Ev.data 3 b7,
        Ev.clk 1, Ev.sleep 1530, Ev.clk 0] := rfl

/-- Explicit trace of an 8-pin-bus `_send` of an arbitrary 8-bit payload:
a single chunk transfer. -/
theorem send8_explicit (b0 b1 b2 b3 b4 b5 b6 b7 mt : Nat) :
    send 8 [b0,b1,b2,b3,b4,b5,b6,b7] mt =
      Except.ok [Ev.rs (if mt = MSG_TYPE_DATA then 1 else 0),
        Ev.data 0 b0, Ev.data 1 b1, Ev.data 2 b2, Ev.data 3 b3,
        Ev.data 4 b4, Ev.data 5 b5, Ev.data 6 b6, Ev.data 7 b7,
        Ev.clk 1, Ev.sleep 1530, Ev.clk 0] := rfl

theorem set_ddram_dataVals {s : State} {a : Nat} {t : List Ev} {s2 : State}
    (hnp : s.no_pins = 4 ∨ s.no_pins = 8)
    (h : set_ddram s a = Except.ok (t, s2)) :
    dataVals t = ddramBits a ∧ s2 = s := by
  obtain ⟨hsend, hs⟩ := cmdSend_ok h
  refine ⟨?_, hs⟩
  have hd : ddramBits a = [bit8 ((a &&& 0xff) ||| 0x80) 7, bit8 ((a &&& 0xff) ||| 0x80) 6,
      bit8 ((a &&& 0xff) ||| 0x80) 5, bit8 ((a &&& 0xff) ||| 0x80) 4,
      bit8 ((a &&& 0xff) ||| 0x80) 3, bit8 ((a &&& 0xff) ||| 0x80) 2,
      bit8 ((a &&& 0xff) ||| 0x80) 1, bit8 ((a &&& 0xff) ||| 0x80) 0] := rfl
  rw [hd] at hsend ⊢
  rcases hnp with hnp | hnp <;> rw [hnp] at hsend
  · rw [send4_explicit] at hsend
    cases hsend
    rfl
  · rw [send8_explicit] at hsend
    cases hsend
    rfl

theorem set_cgram_dataVals {s : State} {a : Nat} {t : List Ev} {s2 : State}
    (hnp : s.no_pins = 4 ∨ s.no_pins = 8)
    (h : set_cgram s a = Except.ok (t, s2)) :
    dataVals t = cgramBits a ∧ s2 = s := by
  obtain ⟨hsend, hs⟩ := cmdSend_ok h
  refine ⟨?_, hs⟩
  have hd : cgramBits a = [bit8 ((a &&& 0x7f) ||| 0x40) 7, bit8 ((a &&& 0x7f) ||| 0x40) 6,
      bit8 ((a &&& 0x7f) ||| 0x40) 5, bit8 ((a &&& 0x7f) ||| 0x40) 4,
      bit8 ((a &&& 0x7f) ||| 0x40) 3, bit8 ((a &&& 0x7f) ||| 0x40) 2,
      bit8 ((a &&& 0x7f) ||| 0x40) 1, bit8 ((a &&& 0x7f) ||| 0x40) 0] := rfl
  rw [hd] at hsend ⊢
  rcases hnp with hnp | hnp <;> rw [hnp] at hsend
  · rw [send4_explicit] at hsend
    cases hsend
    rfl
  · rw [send8_explicit] at hsend
    cases hsend
    rfl

theorem writeLoop_getLast :
    ∀ {buf : List Char} {s : State} {t : List Ev} {s2 : State},
      writeLoop s buf = Except.ok (t, s2) →
      t = [] ∨ t.getLast? = some (Ev.clk 0) := by
  intro buf
  induction buf with
  | nil =>
    intro s t s2 h
    unfold writeLoop at h
    cases h
    exact Or.inl rfl
  | cons ch rest ih =>
    intro s t s2 h
    unfold writeLoop at h
    split at h
    · exact absurd h (by simp)
    · rename_i p1 hch
      split at h
      · exact absurd h (by simp)
      · rename_i p2 hrest
        cases h
        right
        rcases ih hrest with hnil | hlast
        · rw [hnil, List.append_nil]
          exact writeChar_getLast hch
        · rw [List.getLast?_append, hlast]
          rfl

/-! ### Remaining operation-level inversion lemmas -/

theorem ddramBits_ne_nil (a : Nat) : ddramBits a ≠ [] := by
  apply List.ne_nil_of_length_pos
  simp [ddramBits]

theorem cgramBits_ne_nil (a : Nat) : cgramBits a ≠ [] := by
  apply List.ne_nil_of_length_pos
  simp [cgramBits]

theorem cmdSend_getLast {s : State} {bits : List Nat} {t : List Ev} {s2 : State}
    (h : cmdSend s bits = Except.ok (t, s2)) (hne : bits ≠ []) :
    t.getLast? = some (Ev.clk 0) :=
  send_getLast (cmdSend_ok h).1 hne

theorem set_8bit_mode_ok {s : State} {t : List Ev} {s2 : State}
    (h : set_8bit_mode s = Except.ok (t, s2)) :
    ∃ t1 t2 t3, send s.no_pins [0,0,1,1] MSG_TYPE_CMD = Except.ok t3 ∧
      t = t1 ++ t2 ++ t3 ∧ s2 = { s with mode := MODE_8BIT } := by
  unfold set_8bit_mode at h
  split at h
  · exact absurd h (by simp)
  · rename_i t1 h1
    cases h
    exact ⟨t1, t1, t1, h1, rfl, rfl⟩

theorem set_4bit_mode_ok {s : State} {t : List Ev} {s2 : State}
    (h : set_4bit_mode s = Except.ok (t, s2)) :
    ∃ t0 t1, send s2.no_pins [0,0,1,0] MSG_TYPE_CMD = Except.ok t1 ∧
      t = t0 ++ t1 := by
  unfold set_4bit_mode at h
  split at h
  · exact absurd h (by simp)
  · rename_i t0 s0 hp
    split at h
    · exact absurd h (by simp)
    · rename_i t1 h1
      cases h
      exact ⟨t0, t1, h1, rfl⟩

theorem write_ok {s : State} {buf : List Char} {t : List Ev} {s2 : State}
    (h : write s buf = Except.ok (t, s2)) :
    ∃ t0 tl, home s = Except.ok (t0, s) ∧
      writeLoop { s with ch_idx := 0 } buf = Except.ok (tl, s2) ∧
      t = t0 ++ tl := by
  unfold write at h
  split at h
  · exact absurd h (by simp)
  · rename_i t0 s0 h0
    split at h
    · exact absurd h (by simp)
    · rename_i tl sl hl
      cases h
      obtain ⟨-, hs0⟩ := cmdSend_ok h0
      subst hs0
      exact ⟨t0, tl, h0, hl, rfl⟩

/-! ### Claim theorems -/

/-- C1 (code_bug): the claim says construction succeeds for every valid
configuration (4 or 8 data pins, height in 1/2/4) and in particular that
all data-pin indices read during the construction-time mode resets stay in
bounds of the payload.  The code violates this for 8 data pins: the first
`set_8bit_mode` reset hands the 4-bit payload `[0,0,1,1]` to `_send`,
which reads `bit_data[0..7]`, so `bit_data[4]` is out of range and
construction raises `IndexError`.  The 4-pin configuration does construct
successfully. -/
theorem C1_eightpin_init_index_error :
    hdInit 8 16 2 0 = Except.error Err.indexError ∧
    (hdInit 4 16 2 0).toOption.isSome = true := ⟨rfl, rfl⟩

/-- C2 (counterexample): after `clear()` on a controller whose software
cursor counter is 5, the counter is still 5, not 0 -- `clear` only sends
the clear command and never assigns `_ch_idx`. -/
theorem C2_clear_counterexample :
    (clear ⟨5, 16, 2, Sum.inr [0, 64], 4, 8⟩).toOption.map (fun p => p.2.ch_idx) =
      some 5 ∧ (5 : Nat) ≠ 0 := ⟨rfl, by decide⟩

/-- C2 (amended): `clear()` leaves the whole instance state -- in
particular the internal cursor counter `_ch_idx` -- unchanged; the counter
is reset to 0 by `write()` (and at construction), not by `clear()`. -/
theorem C2_clear_preserves_cursor (s : State) (t : List Ev) (s2 : State)
    (h : clear s = Except.ok (t, s2)) : s2.ch_idx = s.ch_idx := by
  obtain ⟨-, hs⟩ := cmdSend_ok h
  rw [hs]

/-- C2 witness: a concrete `clear` call at cursor counter 7. -/
theorem C2_clear_preserves_cursor_witness :
    clear ⟨7, 16, 2, Sum.inr [0, 64], 4, 8⟩ =
      Except.ok ([Ev.rs 0, Ev.data 0 0, Ev.data 1 0, Ev.data 2 0, Ev.data 3 0,
        Ev.clk 1, Ev.sleep 1530, Ev.clk 0,
        Ev.data 0 0, Ev.data 1 0, Ev.data 2 0, Ev.data 3 1,
        Ev.clk 1, Ev.sleep 1530, Ev.clk 0], ⟨7, 16, 2, Sum.inr [0, 64], 4, 8⟩) ∧
    (⟨7, 16, 2, Sum.inr [0, 64], 4, 8⟩ : State).ch_idx = 7 :=
  ⟨rfl, C2_clear_preserves_cursor ⟨7, 16, 2, Sum.inr [0, 64], 4, 8⟩ _
    ⟨7, 16, 2, Sum.inr [0, 64], 4, 8⟩ rfl⟩

/-- C3 (code_bug): the line-address computation matches the claimed
reference sequences for heights 2 and 4 at any width, but for height 1 it
returns the bare integer `0x00` (`(self.DDRAM0_START)` is not a
one-element tuple), not a one-entry sequence; consequently `write` on a
height-1 display raises `TypeError` when it subscripts the table. -/
theorem C3_line_addr_table :
    (∀ w, init_line_addrs w 1 = Except.ok (Sum.inl 0x00) ∧
          init_line_addrs w 2 = Except.ok (Sum.inr [0x00, 0x40]) ∧
          init_line_addrs w 4 = Except.ok (Sum.inr [0x00, 0x40, 0x14, 0x54])) ∧
    write ⟨0, 16, 1, Sum.inl 0x00, 4, MODE_8BIT⟩ ['H'] = Except.error Err.typeError :=
  ⟨fun w => ⟨rfl, rfl, rfl⟩, rfl⟩

/-- C4 (counterexample): constructing with the 5x10 font value (1) still
produces an initialization function-set command whose font bit (payload
index 5) is 0, contradicting the claim that the font argument is forwarded
verbatim. -/
theorem C4_font_counterexample :
    (hdInit 4 16 2 FONT_5x10).toOption.map
        (fun p => (sendPayloads p.1).getLast?.bind (fun pl => pl.get? 5)) =
      some (some 0) ∧ (0 : Nat) ≠ 1 := ⟨rfl, by decide⟩

/-- C4 (amended): the font argument of the constructor is accepted but
ignored: construction is identical for any two font values, and the
function-set command that ends initialization always carries font bit 0
(5x8), since `__init__` hard-codes `set_function(n, 0)`. -/
theorem C4_font_ignored (np w h f g : Nat) :
    hdInit np w h f = hdInit np w h g ∧
    (hdInit 4 16 2 f).toOption.map (fun p => (sendPayloads p.1).getLast?) =
      some (some [0,0,1,0,1,0,1,1]) := ⟨rfl, rfl⟩

/-- C5 (counterexample): with 8 data pins construction yields no trace at
all -- it aborts with an error during the very first 8-bit-mode reset
transfer -- so the reset command is not issued three times irrespective of
bus width. -/
theorem C5_counterexample_8pin : (hdInit 8 16 2 0).toOption = none := rfl

/-- C5 (amended): in the 4-data-pin configuration, for every supported
height and any width and font, construction issues the 8-bit reset payload
`[0,0,1,1]` exactly three times, immediately followed by exactly one
4-bit-switch payload `[0,0,1,0]`, before all other commands; the 8-pin
configuration instead aborts during its first reset transfer and issues no
complete command. -/
theorem C5_reset_sequence (w f : Nat) :
    ((hdInit 4 w 1 f).toOption.map (fun p => ((sendPayloads p.1).take 4,
        (sendPayloads p.1).count [0,0,1,1], (sendPayloads p.1).count [0,0,1,0]))) =
      some ([[0,0,1,1],[0,0,1,1],[0,0,1,1],[0,0,1,0]], 3, 1) ∧
    ((hdInit 4 w 2 f).toOption.map (fun p => ((sendPayloads p.1).take 4,
        (sendPayloads p.1).count [0,0,1,1], (sendPayloads p.1).count [0,0,1,0]))) =
      some ([[0,0,1,1],[0,0,1,1],[0,0,1,1],[0,0,1,0]], 3, 1) ∧
    ((hdInit 4 w 4 f).toOption.map (fun p => ((sendPayloads p.1).take 4,
        (sendPayloads p.1).count [0,0,1,1], (sendPayloads p.1).count [0,0,1,0]))) =
      some ([[0,0,1,1],[0,0,1,1],[0,0,1,1],[0,0,1,0]], 3, 1) ∧
    (hdInit 8 w 2 f).toOption = none := ⟨rfl, rfl, rfl, rfl⟩

/-- C6 (confirmed): for every 8-bit payload, a 4-pin-bus `_send` produces
exactly two 4-pin chunk transfers, most significant nibble first, data-pin
index 0 carrying the most significant bit of each chunk, and each chunk
sets the data pins, raises the clock, sleeps the 1530 microsecond settle
delay, then lowers the clock; an 8-pin-bus `_send` produces exactly one
8-pin chunk transfer of the same shape. -/
theorem C6_send_chunking (b0 b1 b2 b3 b4 b5 b6 b7 mt : Nat) :
    send 4 [b0,b1,b2,b3,b4,b5,b6,b7] mt =
      Except.ok [Ev.rs (if mt = MSG_TYPE_DATA then 1 else 0),
        Ev.data 0 b0, Ev.data 1 b1, Ev.data 2 b2, Ev.data 3 b3,
        Ev.clk 1, Ev.sleep 1530, Ev.clk 0,
        Ev.data 0 b4, Ev.data 1 b5, Ev.data 2 b6, Ev.data 3 b7,
        Ev.clk 1, Ev.sleep 1530, Ev.clk 0] ∧
    send 8 [b0,b1,b2,b3,b4,b5,b6,b7] mt =
      Except.ok [Ev.rs (if mt = MSG_TYPE_DATA then 1 else 0),
        Ev.data 0 b0, Ev.data 1 b1, Ev.data 2 b2, Ev.data 3 b3,
        Ev.data 4 b4, Ev.data 5 b5, Ev.data 6 b6, Ev.data 7 b7,
        Ev.clk 1, Ev.sleep 1530, Ev.clk 0] :=
  ⟨send4_explicit b0 b1 b2 b3 b4 b5 b6 b7 mt,
   send8_explicit b0 b1 b2 b3 b4 b5 b6 b7 mt⟩

/-- C8 (confirmed): for every address `a`, `set_ddram` sends the command
byte `(a & 0xff) | 0x80` and `set_cgram` sends `(a & 0x7f) | 0x40` (the
bit lists they drive onto the pins encode exactly those bytes, most
significant bit first); in particular address `0x05` yields the patterns
of `0x85` and `0x45` respectively. -/
theorem C8_address_commands (a : Nat) :
    byteOfBits (ddramBits a) = ((a &&& 0xff) ||| 0x80) ∧
    byteOfBits (cgramBits a) = ((a &&& 0x7f) ||| 0x40) ∧
    ddramBits 0x05 = [1,0,0,0,0,1,0,1] ∧
    cgramBits 0x05 = [0,1,0,0,0,1,0,1] ∧
    byteOfBits (ddramBits 0x05) = 0x85 ∧
    byteOfBits (cgramBits 0x05) = 0x45 ∧
    (∀ (s : State) (t : List Ev) (s2 : State),
        s.no_pins = 4 ∨ s.no_pins = 8 → set_ddram s a = Except.ok (t, s2) →
        dataVals t = ddramBits a ∧ s2 = s) ∧
    (∀ (s : State) (t : List Ev) (s2 : State),
        s.no_pins = 4 ∨ s.no_pins = 8 → set_cgram s a = Except.ok (t, s2) →
        dataVals t = cgramBits a ∧ s2 = s) :=
  ⟨ddram_byte a, cgram_byte a, rfl, rfl, rfl, rfl,
   fun s t s2 hnp h => set_ddram_dataVals hnp h,
   fun s t s2 hnp h => set_cgram_dataVals hnp h⟩

/-- C8 witness: a concrete `set_ddram 0x05` call on a 4-pin controller,
driving the pin pattern of `0x85`. -/
theorem C8_address_commands_witness :
    set_ddram ⟨0, 16, 2, Sum.inr [0, 64], 4, 8⟩ 0x05 =
      Except.ok ([Ev.rs 0, Ev.data 0 1, Ev.data 1 0, Ev.data 2 0, Ev.data 3 0,
        Ev.clk 1, Ev.sleep 1530, Ev.clk 0,
        Ev.data 0 0, Ev.data 1 1, Ev.data 2 0, Ev.data 3 1,
        Ev.clk 1, Ev.sleep 1530, Ev.clk 0], ⟨0, 16, 2, Sum.inr [0, 64], 4, 8⟩) ∧
    dataVals [Ev.rs 0, Ev.data 0 1, Ev.data 1 0, Ev.data 2 0, Ev.data 3 0,
        Ev.clk 1, Ev.sleep 1530, Ev.clk 0,
        Ev.data 0 0, Ev.data 1 1, Ev.data 2 0, Ev.data 3 1,
        Ev.clk 1, Ev.sleep 1530, Ev.clk 0] = ddramBits 0x05 :=
  ⟨rfl, ((C8_address_commands 0x05).2.2.2.2.2.2.1
    ⟨0, 16, 2, Sum.inr [0, 64], 4, 8⟩ _ ⟨0, 16, 2, Sum.inr [0, 64], 4, 8⟩
    (Or.inl rfl) rfl).1⟩

/-- C7 (confirmed): within a single `write()` call on a display of width
`w` and height `h` whose line-address table is the list `la`, after
writing exactly `w * h` characters the cursor counter has wrapped back to
0; the next character then first issues the set-DDRAM-address command for
row 0's base address (`la` entry 0) before its data byte is sent; and in
every loop iteration a row-address command (the only command send in the
loop, recognisable by its RS-low event) is issued exactly when the counter
modulo the width equals 0. -/
theorem C7_write_wrap (w h np m : Nat) (la : List Nat) (buf : List Char)
    (ch : Char) (t : List Ev) (s2 : State)
    (hlen : buf.length = w * h)
    (hrun : writeLoop ⟨0, w, h, Sum.inr la, np, m⟩ buf = Except.ok (t, s2)) :
    s2.ch_idx = 0 ∧
    (∀ t2 s3, writeChar s2 ch = Except.ok (t2, s3) →
       ∃ a t1 td, la.get? 0 = some a ∧
         set_ddram s2 a = Except.ok (t1, s2) ∧
         send np (binDigits ch.toNat) MSG_TYPE_DATA = Except.ok td ∧
         t2 = t1 ++ td) ∧
    (∀ (u : State) (c : Char) (t3 : List Ev) (s4 : State),
       writeChar u c = Except.ok (t3, s4) →
       (Ev.rs 0 ∈ t3 ↔ u.ch_idx % u.width = 0)) := by
  have hs2 : s2 = ⟨0, w, h, Sum.inr la, np, m⟩ := by
    rcases writeLoop_ok_state hrun with heq | ⟨-, heq⟩
    · rw [heq, hlen]
      simp
    · rw [heq]
  constructor
  · rw [hs2]
  constructor
  · intro t2 s3 hwc
    obtain ⟨-, hw, -, t1, td, rfl, hsend, hsplit⟩ := writeChar_ok hwc
    rcases hsplit with ⟨-, la2, a, hla2, hga, hdd⟩ | ⟨hnz, -⟩
    · rw [hs2] at hla2 hga hdd hsend
      simp only [] at hla2 hga hdd hsend
      cases hla2
      refine ⟨a, t1, td, ?_, ?_, ?_, rfl⟩
      · simpa using hga
      · rw [hs2]
        exact hdd
      · exact hsend
    · exfalso
      apply hnz
      rw [hs2]
      exact Nat.zero_mod w
  · intro u c t3 s4 hwc
    obtain ⟨-, hw, -, t1, td, rfl, hsend, hsplit⟩ := writeChar_ok hwc
    have hdata : ∀ v, Ev.rs v ∈ td ↔ v = 1 := by
      intro v
      simpa using send_rs_mem hsend v
    rcases hsplit with ⟨hz, la2, a, hla2, hga, hdd⟩ | ⟨hnz, rfl⟩
    · have hcmd : Ev.rs 0 ∈ t1 :=
        (send_rs_mem (cmdSend_ok hdd).1 0).mpr (by decide)
      constructor
      · intro _
        exact hz
      · intro _
        exact List.mem_append_left _ hcmd
    · simp only [List.nil_append]
      constructor
      · intro hmem
        exact absurd ((hdata 0).mp hmem) (by decide)
      · intro hz
        exact absurd hz hnz

/-- C7 witness: a 1-by-2 display, writing exactly 1*2 = 2 characters wraps
the counter back to 0. -/
theorem C7_write_wrap_witness :
    (['A','B'] : List Char).length = 1 * 2 ∧
    writeLoop ⟨0, 1, 2, Sum.inr [0, 64], 4, 8⟩ ['A','B'] =
      Except.ok ([Ev.rs 0,
        Ev.data 0 1, Ev.data 1 0, Ev.data 2 0, Ev.data 3 0,
        Ev.clk 1, Ev.sleep 1530, Ev.clk 0,
        Ev.data 0 0, Ev.data 1 0, Ev.data 2 0, Ev.data 3 0,
        Ev.clk 1, Ev.sleep 1530, Ev.clk 0,
        Ev.rs 1,
        Ev.data 0 0, Ev.data 1 1, Ev.data 2 0, Ev.data 3 0,
        Ev.clk 1, Ev.sleep 1530, Ev.clk 0,
        Ev.data 0 0, Ev.data 1 0, Ev.data 2 0, Ev.data 3 1,
        Ev.clk 1, Ev.sleep 1530, Ev.clk 0,
        Ev.rs 0,
        Ev.data 0 1, Ev.data 1 1, Ev.data 2 0, Ev.data 3 0,
        Ev.clk 1, Ev.sleep 1530, Ev.clk 0,
        Ev.data 0 0, Ev.data 1 0, Ev.data 2 0, Ev.data 3 0,
        Ev.clk 1, Ev.sleep 1530, Ev.clk 0,
        Ev.rs 1,
        Ev.data 0 0, Ev.data 1 1, Ev.data 2 0, Ev.data 3 0,
        Ev.clk 1, Ev.sleep 1530, Ev.clk 0,
        Ev.data 0 0, Ev.data 1 0, Ev.data 2 1, Ev.data 3 0,
        Ev.clk 1, Ev.sleep 1530, Ev.clk 0], ⟨0, 1, 2, Sum.inr [0, 64], 4, 8⟩) ∧
    (⟨0, 1, 2, Sum.inr [0, 64], 4, 8⟩ : State).ch_idx = 0 :=
  ⟨rfl, rfl,
   (C7_write_wrap 1 2 4 8 [0, 64] ['A','B'] 'C' _
     ⟨0, 1, 2, Sum.inr [0, 64], 4, 8⟩ rfl rfl).1⟩

/-- C10 (confirmed): every public operation that returns does so with the
clock/enable pin driven low: on success, the operation's event trace ends
with the `clk 0` event that closes its final chunk transfer, so the clock
line is never left high between operations. -/
theorem C10_clock_low_on_return (s : State) :
    (∀ t s2, clear s = Except.ok (t, s2) → t.getLast? = some (Ev.clk 0)) ∧
    (∀ t s2, home s = Except.ok (t, s2) → t.getLast? = some (Ev.clk 0)) ∧
    (∀ a b t s2, shift s a b = Except.ok (t, s2) → t.getLast? = some (Ev.clk 0)) ∧
    (∀ buf t s2, write s buf = Except.ok (t, s2) → t.getLast? = some (Ev.clk 0)) ∧
    (∀ t s2, set_8bit_mode s = Except.ok (t, s2) → t.getLast? = some (Ev.clk 0)) ∧
    (∀ t s2, set_4bit_mode s = Except.ok (t, s2) → t.getLast? = some (Ev.clk 0)) ∧
    (∀ d c b t s2, set_display_opts s d c b = Except.ok (t, s2) →
      t.getLast? = some (Ev.clk 0)) ∧
    (∀ a b t s2, set_entry_mode s a b = Except.ok (t, s2) →
      t.getLast? = some (Ev.clk 0)) ∧
    (∀ n f t s2, set_function s n f = Except.ok (t, s2) →
      t.getLast? = some (Ev.clk 0)) ∧
    (∀ a t s2, set_ddram s a = Except.ok (t, s2) → t.getLast? = some (Ev.clk 0)) ∧
    (∀ a t s2, set_cgram s a = Except.ok (t, s2) → t.getLast? = some (Ev.clk 0)) := by
  refine ⟨?_, ?_, ?_, ?_, ?_, ?_, ?_, ?_, ?_, ?_, ?_⟩
  · intro t s2 h
    exact cmdSend_getLast h (by simp)
  · intro t s2 h
    exact cmdSend_getLast h (by simp)
  · intro a b t s2 h
    exact cmdSend_getLast h (by simp)
  · intro buf t s2 h
    obtain ⟨t0, tl, h0, hl, rfl⟩ := write_ok h
    rcases writeLoop_getLast hl with rfl | hlast
    · rw [List.append_nil]
      exact cmdSend_getLast h0 (by simp)
    · rw [List.getLast?_append, hlast]
      rfl
  · intro t s2 h
    obtain ⟨t1, t2, t3, h3, rfl, -⟩ := set_8bit_mode_ok h
    rw [List.getLast?_append, send_getLast h3 (by simp)]
    rfl
  · intro t s2 h
    obtain ⟨t0, t1, h1, rfl⟩ := set_4bit_mode_ok h
    rw [List.getLast?_append, send_getLast h1 (by simp)]
    rfl
  · intro d c b t s2 h
    exact cmdSend_getLast h (by simp)
  · intro a b t s2 h
    exact cmdSend_getLast h (by simp)
  · intro n f t s2 h
    exact cmdSend_getLast h (by simp)
  · intro a t s2 h
    exact cmdSend_getLast h (ddramBits_ne_nil a)
  · intro a t s2 h
    exact cmdSend_getLast h (cgramBits_ne_nil a)

/-- C10 witness: a concrete `clear` whose trace ends with the clock pin
driven low. -/
theorem C10_clock_low_on_return_witness :
    clear ⟨0, 16, 2, Sum.inr [0, 64], 4, 8⟩ =
      Except.ok ([Ev.rs 0, Ev.data 0 0, Ev.data 1 0, Ev.data 2 0, Ev.data 3 0,
        Ev.clk 1, Ev.sleep 1530, Ev.clk 0,
        Ev.data 0 0, Ev.data 1 0, Ev.data 2 0, Ev.data 3 1,
        Ev.clk 1, Ev.sleep 1530, Ev.clk 0], ⟨0, 16, 2, Sum.inr [0, 64], 4, 8⟩) ∧
    ([Ev.rs 0, Ev.data 0 0, Ev.data 1 0, Ev.data 2 0, Ev.data 3 0,
        Ev.clk 1, Ev.sleep 1530, Ev.clk 0,
        Ev.data 0 0, Ev.data 1 0, Ev.data 2 0, Ev.data 3 1,
        Ev.clk 1, Ev.sleep 1530, Ev.clk 0] : List Ev).getLast? =
      some (Ev.clk 0) :=
  ⟨rfl, (C10_clock_low_on_return ⟨0, 16, 2, Sum.inr [0, 64], 4, 8⟩).1 _
    ⟨0, 16, 2, Sum.inr [0, 64], 4, 8⟩ rfl⟩

/-- C9 (counterexample): constructing with 3 data pins raises, but the
error is the out-of-bounds payload read inside `_send` (Python
`IndexError`), not the explicit pin-count configuration Exception, which
is never reached for this pin count. -/
theorem C9_counterexample_pin3 :
    hdInit 3 16 2 0 = Except.error Err.indexError ∧
    Err.indexError ≠ Err.pinCountError := ⟨rfl, by decide⟩

/-- C9 (amended): constructing with a pin count other than 4 or 8, or a
height outside 1/2/4, always raises and produces no instance, with no
retry; invalid heights (and pin counts 1 and 2) raise the explicit
configuration Exception, while pin counts 0, 3, 5, 6, 7, or more than 8
abort earlier, inside the first mode-reset `_send` (index or range
error), before the explicit pin-count check is reached. -/
theorem C9_invalid_config_raises (np w h f : Nat)
    (hinv : (np ≠ 4 ∧ np ≠ 8) ∨ (h ≠ 1 ∧ h ≠ 2 ∧ h ≠ 4)) :
    (hdInit np w h f).toOption = none := by
  rcases hinv with ⟨hn4, hn8⟩ | ⟨h1, h2, h4⟩
  · unfold hdInit
    cases hla : init_line_addrs w h with
    | error e => rfl
    | ok la =>
      cases h8 : set_8bit_mode
          { ch_idx := 0, width := w, height := h,
            line_addr := la, no_pins := np, mode := MODE_UNKNOWN } with
      | error e => simp [h8, Except.toOption]
      | ok p => simp [h8, hn4, hn8, Except.toOption]
  · simp [hdInit, init_line_addrs, h1, h2, h4, Except.toOption]

/-- C9 witness: 3 data pins is an invalid pin count and construction
yields no instance. -/
theorem C9_invalid_config_raises_witness :
    (((3 : Nat) ≠ 4 ∧ (3 : Nat) ≠ 8) ∨
      ((2 : Nat) ≠ 1 ∧ (2 : Nat) ≠ 2 ∧ (2 : Nat) ≠ 4)) ∧
    (hdInit 3 16 2 0).toOption = none :=
  ⟨Or.inl ⟨by decide, by decide⟩,
   C9_invalid_config_raises 3 16 2 0 (Or.inl ⟨by decide, by decide⟩)⟩

end HD44780
